import Mathlib

/-!
Verification of the dns-mock-server library (`src/lib.rs`): a mock
authoritative DNS responder holding an in-memory map from normalized
(lowercased, trailing-dot-canonical) domain names to configured response
outcomes, answering queries with address records, an explicit status code,
or a server-failure default.

The embedding translates `Server`, `Response`, `add_records`,
`add_response` and `handle_request` from `src/lib.rs`.  The external
hickory-server library (name parsing into `LowerName`, header and record
construction) is not part of this repository; its behaviour at the
boundary is modelled from the specification of that boundary: a `LowerName`
is a DNS name parsed from presentation form and normalized to lowercase,
with the canonical trailing dot not affecting equality, rejecting names
that cannot be parsed (invalid characters, over-long labels, empty names).
-/

namespace DnsMock

/-- Characters permitted in a DNS label by the modelled name parser:
ASCII letters, digits, hyphen and underscore. -/
def validChar (c : Char) : Bool :=
  (97 ≤ c.toNat && c.toNat ≤ 122) || (65 ≤ c.toNat && c.toNat ≤ 90) ||
  (48 ≤ c.toNat && c.toNat ≤ 57) || c.toNat == 45 || c.toNat == 95

/-- Splits a character list into dot-separated labels, with `cur` the
label accumulated so far.  Mirrors the presentation-format scan of the
external name parser: an empty label (leading dot or two consecutive
dots) is an error, a single trailing dot is consumed as the FQDN marker,
and an invalid character is an error. -/
def parseLabels : List Char → List Char → Option (List (List Char))
  | [], cur => if cur = [] then some [] else some [cur]
  | c :: rest, cur =>
    if c = '.' then
      if cur = [] then none
      else (parseLabels rest []).map (fun labs => cur :: labs)
    else if validChar c then parseLabels rest (cur ++ [c])
    else none

/-- A normalized DNS name: the list of labels, lowercased, with the
trailing-dot (FQDN) marker already erased, so that equality of
`LowerName`s is exactly case-insensitive dot-normalized name equality. -/
structure LowerName where
  labels : List (List Char)
  deriving DecidableEq

/-- Length of a name on the wire: one length byte plus the content per
label, plus the root byte. -/
def encodedLen (labs : List (List Char)) : Nat :=
  labs.foldr (fun l acc => l.length + 1 + acc) 1

/-- Modelled from the spec: the external library's `LowerName::from_str`,
which parses a textual DNS name and normalizes it to lowercase, failing
when the text cannot be parsed as a valid DNS name (invalid characters,
label longer than 63 bytes, name longer than 255 bytes, empty string
where a name is required).  `none` is the `ProtoError` failure. -/
def LowerName.from_str (s : String) : Option LowerName :=
  if s.data = [] then none
  else if s.data = ['.'] then some ⟨[]⟩
  else
    match parseLabels s.data [] with
    | none => none
    | some labs =>
      if (∀ l ∈ labs, l.length ≤ 63) ∧ encodedLen labs ≤ 255 then
        some ⟨labs.map (fun l => l.map Char.toLower)⟩
      else none

/-- Parsing a character list that is already lowercased, without the
final lowercasing pass; `LowerName.from_str` factors through it. -/
def fromLower (ys : List Char) : Option LowerName :=
  if ys = [] then none
  else if ys = ['.'] then some ⟨[]⟩
  else
    match parseLabels ys [] with
    | none => none
    | some labs =>
      if (∀ l ∈ labs, l.length ≤ 63) ∧ encodedLen labs ≤ 255 then
        some ⟨labs⟩
      else none

/-- Drops a single canonical trailing dot when one is present. -/
def dropTrailingDot (xs : List Char) : List Char :=
  if xs.getLast? = some '.' then xs.dropLast else xs

/-- An IP address, either v4 or v6, as in `std::net::IpAddr`. -/
inductive IpAddr
  | V4 (a b c d : Nat)
  | V6 (g1 g2 g3 g4 g5 g6 g7 g8 : Nat)
  deriving DecidableEq

/-- DNS response codes, as in hickory's `ResponseCode`. -/
inductive ResponseCode
  | NoError
  | FormErr
  | ServFail
  | NXDomain
  | NotImp
  | Refused
  | Other (code : Nat)
  deriving DecidableEq

/-- Configured outcome for a name, from `src/lib.rs`: either a list of
addresses (`Response::Ok`) or a bare response code (`Response::Code`). -/
inductive Response
  | Ok (entries : List IpAddr)
  | Code (code : ResponseCode)
  deriving DecidableEq

/-- Record data for the two record types the server emits. -/
inductive RData
  | A (a b c d : Nat)
  | AAAA (g1 g2 g3 g4 g5 g6 g7 g8 : Nat)
  deriving DecidableEq

/-- A DNS resource record: owner name, TTL and data, as built by
`Record::from_rdata(name.into(), 60, rdata)` in `handle_request`. -/
structure Record where
  name : LowerName
  ttl : Nat
  rdata : RData
  deriving DecidableEq

/-- Constructs a record from its parts, mirroring `Record::from_rdata`. -/
def Record.from_rdata (name : LowerName) (ttl : Nat) (rdata : RData) : Record :=
  ⟨name, ttl, rdata⟩

/-- The `HashMap<LowerName, Response>` store, embedded as an association
list whose keys are unique for every store reachable through the API. -/
abbrev Store : Type := List (LowerName × Response)

/-- Lookup by key, as `HashMap::get`: the value at the first (and, for
reachable stores, only) binding of the key. -/
def Store.get : Store → LowerName → Option Response
  | [], _ => none
  | (k, v) :: rest, n => if k = n then some v else Store.get rest n

/-- Insert by key, as `HashMap::insert`: replaces the binding of the key
when present, otherwise appends a new binding. -/
def Store.insert : Store → LowerName → Response → Store
  | [], k, v => [(k, v)]
  | (k', v') :: rest, k, v =>
    if k' = k then (k, v) :: rest else (k', v') :: Store.insert rest k v

/-- Key uniqueness: the invariant `HashMap` maintains intrinsically. -/
def keysNodup (st : Store) : Prop := (st.map Prod.fst).Nodup

/-- The mock DNS server: the record store, from `struct Server`. -/
structure Server where
  store : Store
  deriving DecidableEq

/-- An empty server, as `Server::default()`. -/
def Server.default : Server := ⟨[]⟩

/-- Registration failure: hickory's `ProtoError` raised when the textual
name cannot be parsed (the spec's `NameError`). -/
inductive ProtoError
  | NameError
  deriving DecidableEq

/-- Embeds `Server::add_response`: parse the textual name into a
`LowerName` (propagating the parse error with `?` before the store is
touched), then insert/overwrite the mapping.  The Rust method mutates
`&mut self` and returns `Result<(), ProtoError>`; here the updated server
is returned alongside the result. -/
def Server.add_response (srv : Server) (name : String) (response : Response) :
    Except ProtoError Unit × Server :=
  match LowerName.from_str name with
  | none => (Except.error ProtoError.NameError, srv)
  | some n => (Except.ok (), ⟨Store.insert srv.store n response⟩)

/-- Embeds `Server::add_records`, which delegates to `add_response` with
`Response::Ok(records)`. -/
def Server.add_records (srv : Server) (name : String) (records : List IpAddr) :
    Except ProtoError Unit × Server :=
  Server.add_response srv name (Response.Ok records)

/-- Response header: the fields `handle_request` manipulates.  The
initial header comes from `Header::response_from_request`, whose response
code for a query is `NoError`; the code then sets the authoritative
flag. -/
structure Header where
  authoritative : Bool
  responseCode : ResponseCode
  deriving DecidableEq

/-- The constructed DNS response: header plus answer records (authority
and additional sections are always empty in `handle_request`). -/
structure DnsResponse where
  header : Header
  answers : List Record
  deriving DecidableEq

/-- Embeds `handle_request` from `src/lib.rs`: sets the authoritative
flag, looks the queried name up in the store, and branches three ways —
`Some(Response::Ok(entries))` renders one A/AAAA record per address with
the queried name as owner and TTL 60, `Some(Response::Code(code))`
returns the configured code with no records, and the wildcard (not
found) returns `ServFail` with no records.  The handler takes `&self`,
so the server travels through unchanged; it is returned alongside the
response to make that explicit. -/
def handle_request (srv : Server) (queryName : LowerName) : DnsResponse × Server :=
  let header : Header := { authoritative := true, responseCode := ResponseCode.NoError }
  match Store.get srv.store queryName with
  | some (Response.Ok entries) =>
    let records := entries.map (fun entry =>
      Record.from_rdata queryName 60
        (match entry with
         | IpAddr.V4 a b c d => RData.A a b c d
         | IpAddr.V6 g1 g2 g3 g4 g5 g6 g7 g8 => RData.AAAA g1 g2 g3 g4 g5 g6 g7 g8))
    ({ header := header, answers := records }, srv)
  | some (Response.Code code) =>
    ({ header := { header with responseCode := code }, answers := [] }, srv)
  | none =>
    ({ header := { header with responseCode := ResponseCode.ServFail }, answers := [] }, srv)

/-- Builds a server from a list of registrations applied in order to an
empty server, discarding per-call results — the way a test populates the
store before starting the server. -/
def registerAll (regs : List (String × Response)) : Server :=
  regs.foldl (fun srv p => (Server.add_response srv p.1 p.2).2) Server.default

theorem char_toNat_ofNat (n : Nat) (h : n.isValidChar) : (Char.ofNat n).toNat = n := by
  simp only [Char.ofNat, h, dif_pos, Char.ofNatAux, Char.toNat]
  simp [UInt32.toNat]

theorem toLower_toNat (c : Char) :
    (Char.toLower c).toNat = if 65 ≤ c.toNat ∧ c.toNat ≤ 90 then c.toNat + 32 else c.toNat := by
  unfold Char.toLower
  split
  case isTrue h =>
    rw [if_pos (by omega)]
    exact char_toNat_ofNat _ (Or.inl (by omega))
  case isFalse h =>
    rw [if_neg (by omega)]

theorem char_toNat_inj (c d : Char) (h : c.toNat = d.toNat) : c = d := by
  apply Char.eq_of_val_eq
  apply UInt32.eq_of_toBitVec_eq
  apply BitVec.eq_of_toNat_eq
  exact h

theorem toLower_eq_dot (c : Char) : Char.toLower c = '.' ↔ c = '.' := by
  constructor
  · intro h
    have h2 := congrArg Char.toNat h
    rw [toLower_toNat] at h2
    have hdot : ('.' : Char).toNat = 46 := by decide
    rw [hdot] at h2
    apply char_toNat_inj
    rw [hdot]
    by_cases hc : 65 ≤ c.toNat ∧ c.toNat ≤ 90
    · rw [if_pos hc] at h2; omega
    · rw [if_neg hc] at h2; omega
  · intro h; subst h; decide

theorem validChar_iff (c : Char) :
    validChar c = true ↔
      (97 ≤ c.toNat ∧ c.toNat ≤ 122) ∨ (65 ≤ c.toNat ∧ c.toNat ≤ 90) ∨
      (48 ≤ c.toNat ∧ c.toNat ≤ 57) ∨ c.toNat = 45 ∨ c.toNat = 95 := by
  simp [validChar, Bool.or_eq_true, decide_eq_true_iff, or_assoc]

theorem validChar_toLower (c : Char) : validChar (Char.toLower c) = validChar c := by
  rw [Bool.eq_iff_iff, validChar_iff, validChar_iff, toLower_toNat]
  by_cases hc : 65 ≤ c.toNat ∧ c.toNat ≤ 90
  · rw [if_pos hc]; omega
  · rw [if_neg hc]

theorem map_toLower_eq_dot_singleton (xs : List Char) :
    xs.map Char.toLower = ['.'] ↔ xs = ['.'] := by
  cases xs with
  | nil => simp
  | cons c rest =>
    cases rest with
    | nil => simp [toLower_eq_dot]
    | cons d rest2 => simp

theorem parseLabels_toLower (xs : List Char) : ∀ cur,
    parseLabels (xs.map Char.toLower) (cur.map Char.toLower) =
      (parseLabels xs cur).map (fun labs => labs.map (fun l => l.map Char.toLower)) := by
  induction xs with
  | nil =>
    intro cur
    by_cases h : cur = []
    · subst h; simp [parseLabels]
    · simp only [List.map_nil, parseLabels]
      rw [if_neg (by simpa using h), if_neg h]
      simp
  | cons c rest ih =>
    intro cur
    simp only [List.map_cons, parseLabels]
    by_cases hdot : c = '.'
    · subst hdot
      rw [if_pos ((toLower_eq_dot _).mpr rfl), if_pos rfl]
      by_cases hcur : cur = []
      · subst hcur
        simp
      · rw [if_neg (by simpa using hcur), if_neg hcur]
        have h0 := ih []
        simp only [List.map_nil] at h0
        rw [h0]
        cases parseLabels rest [] <;> simp
    · rw [if_neg (fun hh => hdot ((toLower_eq_dot c).mp hh)), if_neg hdot,
        validChar_toLower]
      by_cases hv : validChar c = true
      · rw [if_pos hv, if_pos hv]
        have h1 := ih (cur ++ [c])
        simpa using h1
      · rw [if_neg hv, if_neg hv]
        simp

theorem encodedLen_map_toLower (labs : List (List Char)) :
    encodedLen (labs.map (fun l => l.map Char.toLower)) = encodedLen labs := by
  unfold encodedLen
  rw [List.foldr_map]
  simp

theorem from_str_eq_fromLower (s : String) :
    LowerName.from_str s = fromLower (s.data.map Char.toLower) := by
  unfold LowerName.from_str fromLower
  by_cases h0 : s.data = []
  · simp [h0]
  · by_cases h1 : s.data = ['.']
    · simp [h1]
    · have hm0 : ¬(s.data.map Char.toLower = []) := by simpa using h0
      have hm1 : ¬(s.data.map Char.toLower = ['.']) :=
        fun hh => h1 ((map_toLower_eq_dot_singleton s.data).mp hh)
      simp only [if_neg h0, if_neg h1, if_neg hm0, if_neg hm1]
      have hcomm := parseLabels_toLower s.data []
      simp only [List.map_nil] at hcomm
      rw [hcomm]
      cases hp : parseLabels s.data [] with
      | none => rfl
      | some labs =>
        simp only [Option.map_some']
        by_cases hc : (∀ l ∈ labs, l.length ≤ 63) ∧ encodedLen labs ≤ 255
        · rw [if_pos hc, if_pos]
          refine ⟨?_, ?_⟩
          · intro l hl
            rcases List.mem_map.mp hl with ⟨l0, hl0, rfl⟩
            simpa using hc.1 l0 hl0
          · rw [encodedLen_map_toLower]; exact hc.2
        · rw [if_neg hc, if_neg]
          intro hcontra
          apply hc
          refine ⟨?_, ?_⟩
          · intro l hl
            have := hcontra.1 (l.map Char.toLower) (List.mem_map.mpr ⟨l, hl, rfl⟩)
            simpa using this
          · have := hcontra.2
            rwa [encodedLen_map_toLower] at this

theorem parseLabels_append_dot (zs : List Char) :
    ∀ cur, zs ≠ [] → zs.getLast? ≠ some '.' →
      parseLabels (zs ++ ['.']) cur = parseLabels zs cur := by
  induction zs with
  | nil => intro cur hne _; exact absurd rfl hne
  | cons c rest ih =>
    intro cur _ hlast
    by_cases hr : rest = []
    · subst hr
      have hc : c ≠ '.' := by
        intro hh
        exact hlast (by simp [hh])
      simp only [List.cons_append, List.nil_append, parseLabels]
      rw [if_neg hc, if_neg hc]
      by_cases hv : validChar c = true
      · rw [if_pos hv, if_pos hv]
        simp [parseLabels]
      · rw [if_neg hv, if_neg hv]
    · have hlast' : rest.getLast? ≠ some '.' := by
        rcases List.exists_cons_of_ne_nil hr with ⟨d, rest2, rfl⟩
        rwa [List.getLast?_cons_cons] at hlast
      simp only [List.cons_append, List.append_eq, parseLabels]
      by_cases hdot : c = '.'
      · subst hdot
        by_cases hcur : cur = []
        · rw [if_pos rfl, if_pos rfl, if_pos hcur, if_pos hcur]
        · rw [if_pos rfl, if_pos rfl, if_neg hcur, if_neg hcur,
            ih [] hr hlast']
      · rw [if_neg hdot, if_neg hdot]
        by_cases hv : validChar c = true
        · rw [if_pos hv, if_pos hv, ih (cur ++ [c]) hr hlast']
        · rw [if_neg hv, if_neg hv]

theorem fromLower_append_dot (zs : List Char) (hne : zs ≠ [])
    (hlast : zs.getLast? ≠ some '.') :
    fromLower (zs ++ ['.']) = fromLower zs := by
  unfold fromLower
  have hne' : zs ++ ['.'] ≠ [] := by simp
  rw [if_neg hne', if_neg hne]
  have hdot1 : zs ++ ['.'] ≠ ['.'] := by
    intro hh
    have hlen := congrArg List.length hh
    simp at hlen
    exact hne hlen
  have hz : zs ≠ ['.'] := by
    intro hh
    exact hlast (by simp [hh])
  rw [if_neg hdot1, if_neg hz, parseLabels_append_dot zs [] hne hlast]

theorem fromLower_dropTrailingDot (ls lt : List Char) (hls : ls ≠ []) (hlt : lt ≠ [])
    (h : dropTrailingDot ls = dropTrailingDot lt) : fromLower ls = fromLower lt := by
  unfold dropTrailingDot at h
  have decomp : ∀ xs : List Char, xs.getLast? = some '.' → xs = xs.dropLast ++ ['.'] := by
    intro xs hx
    have hxne : xs ≠ [] := by
      intro hh; subst hh; simp at hx
    have hg : xs.getLast hxne = '.' := by
      have := List.getLast?_eq_getLast xs hxne
      rw [this] at hx
      exact Option.some.inj hx
    conv_lhs => rw [← List.dropLast_append_getLast hxne]
    rw [hg]
  by_cases h1 : ls.getLast? = some '.'
  · by_cases h2 : lt.getLast? = some '.'
    · rw [if_pos h1, if_pos h2] at h
      rw [decomp ls h1, decomp lt h2, h]
    · rw [if_pos h1, if_neg h2] at h
      have e1 : ls = lt ++ ['.'] := by rw [decomp ls h1, h]
      have hlt' : lt ≠ [] := hlt
      rw [e1, fromLower_append_dot lt hlt' h2]
  · by_cases h2 : lt.getLast? = some '.'
    · rw [if_neg h1, if_pos h2] at h
      have e2 : lt = ls ++ ['.'] := by rw [decomp lt h2, ← h]
      rw [e2, fromLower_append_dot ls hls h1]
    · rw [if_neg h1, if_neg h2] at h
      rw [h]

theorem string_data_ne_nil (s : String) (hs : s ≠ "") : s.data ≠ [] := by
  intro hd
  apply hs
  cases s with
  | mk data =>
    simp only at hd
    rw [hd]

theorem get_insert (st : Store) (k : LowerName) (v : Response) (n : LowerName) :
    Store.get (Store.insert st k v) n = if k = n then some v else Store.get st n := by
  induction st with
  | nil =>
    simp only [Store.insert, Store.get]
  | cons p rest ih =>
    obtain ⟨k', v'⟩ := p
    simp only [Store.insert]
    by_cases h1 : k' = k
    · subst h1
      simp only [if_pos rfl, Store.get]
      by_cases h2 : k' = n
      · rw [if_pos h2, if_pos h2]
      · rw [if_neg h2, if_neg h2, if_neg h2]
    · rw [if_neg h1]
      simp only [Store.get, ih]
      by_cases h2 : k' = n
      · have hkn : ¬k = n := fun hh => h1 (hh ▸ h2)
        rw [if_pos h2, if_neg hkn, if_pos h2]
      · rw [if_neg h2]
        by_cases h3 : k = n
        · rw [if_pos h3, if_pos h3]
        · rw [if_neg h3, if_neg h3, if_neg h2]

theorem keys_insert (st : Store) (k : LowerName) (v : Response) :
    (Store.insert st k v).map Prod.fst =
      if k ∈ st.map Prod.fst then st.map Prod.fst
      else st.map Prod.fst ++ [k] := by
  induction st with
  | nil => simp [Store.insert]
  | cons p rest ih =>
    obtain ⟨k', v'⟩ := p
    simp only [Store.insert, List.map_cons]
    by_cases h1 : k' = k
    · subst h1
      rw [if_pos rfl, List.map_cons, if_pos (List.mem_cons_self _ _)]
    · rw [if_neg h1, List.map_cons, ih]
      have hne : ¬(k = k') := fun hh => h1 hh.symm
      by_cases h2 : k ∈ rest.map Prod.fst
      · rw [if_pos h2, if_pos (List.mem_cons.mpr (Or.inr h2))]
      · rw [if_neg h2, if_neg (by
          intro hh
          rcases List.mem_cons.mp hh with hh | hh
          · exact hne hh
          · exact h2 hh)]
        simp

theorem keysNodup_insert (st : Store) (k : LowerName) (v : Response)
    (h : keysNodup st) : keysNodup (Store.insert st k v) := by
  unfold keysNodup at h ⊢
  rw [keys_insert]
  by_cases h2 : k ∈ st.map Prod.fst
  · rwa [if_pos h2]
  · rw [if_neg h2]
    simp [List.nodup_append, h, h2]

theorem mem_insert_key_eq (st : Store) (k : LowerName) (v : Response)
    (h : keysNodup st) (p : LowerName × Response)
    (hp : p ∈ Store.insert st k v) (hk : p.1 = k) : p.2 = v := by
  induction st with
  | nil =>
    simp [Store.insert] at hp
    rw [hp]
  | cons q rest ih =>
    obtain ⟨k', v'⟩ := q
    simp only [keysNodup, List.map_cons, List.nodup_cons] at h
    simp only [Store.insert] at hp
    by_cases h1 : k' = k
    · subst h1
      rw [if_pos rfl] at hp
      rcases List.mem_cons.mp hp with hq | hq
      · rw [hq]
      · exfalso
        apply h.1
        rw [← hk]
        exact List.mem_map.mpr ⟨p, hq, rfl⟩
    · rw [if_neg h1] at hp
      rcases List.mem_cons.mp hp with hq | hq
      · exfalso
        apply h1
        rw [← hk, hq]
      · exact ih h.2 hq

/-- C1: for every name registered with a non-empty address list, handling
a query for that exact name produces a response with the authoritative
flag set, response code success, and exactly one answer record per
registered address in registration order, where each IPv4 address becomes
an A record and each IPv6 address becomes an AAAA record, each record
owned by the queried name with TTL 60. -/
theorem handle_request_address_set (srv : Server) (q : LowerName) (entries : List IpAddr)
    (hfound : Store.get srv.store q = some (Response.Ok entries))
    (hne : entries ≠ []) :
    (handle_request srv q).1.header.authoritative = true ∧
    (handle_request srv q).1.header.responseCode = ResponseCode.NoError ∧
    (handle_request srv q).1.answers = entries.map (fun entry =>
      Record.from_rdata q 60
        (match entry with
         | IpAddr.V4 a b c d => RData.A a b c d
         | IpAddr.V6 g1 g2 g3 g4 g5 g6 g7 g8 => RData.AAAA g1 g2 g3 g4 g5 g6 g7 g8)) := by
  simp [handle_request, hfound]

/-- C2: for every queried name that has no mapping in the store, handling
the query produces a response with the authoritative flag set, response
code server failure, and zero answer records. -/
theorem handle_request_not_found (srv : Server) (q : LowerName)
    (h : Store.get srv.store q = none) :
    (handle_request srv q).1 =
      { header := { authoritative := true, responseCode := ResponseCode.ServFail },
        answers := [] } := by
  simp [handle_request, h]

/-- C3: for every name registered with a status-only outcome carrying
response code `c`, handling a query for that name produces a response
with the authoritative flag set, response code exactly `c`, and zero
answer records — distinguishable from the server-failure default used
for unregistered names whenever `c` is not ServFail. -/
theorem handle_request_status_only (srv : Server) (q : LowerName) (c : ResponseCode)
    (h : Store.get srv.store q = some (Response.Code c)) :
    (handle_request srv q).1.header.authoritative = true ∧
    (handle_request srv q).1.header.responseCode = c ∧
    (handle_request srv q).1.answers = [] ∧
    (c ≠ ResponseCode.ServFail →
      ∀ srv2 : Server, Store.get srv2.store q = none →
        (handle_request srv q).1 ≠ (handle_request srv2 q).1) := by
  refine ⟨by simp [handle_request, h], by simp [handle_request, h],
    by simp [handle_request, h], ?_⟩
  intro hc srv2 h2
  simp only [handle_request, h, h2]
  intro hcontra
  apply hc
  have := congrArg (fun r => r.header.responseCode) hcontra
  simpa using this

/-- C5: name matching is case-insensitive and trailing-dot-normalized —
two nonempty textual names equal after ASCII lowercasing and dropping a
canonical trailing dot parse to the same normalized name, and
registration under one spelling is found by lookup under the other. -/
theorem name_matching_normalized (s t : String) (hs : s ≠ "") (ht : t ≠ "")
    (h : dropTrailingDot (s.data.map Char.toLower) =
      dropTrailingDot (t.data.map Char.toLower)) :
    LowerName.from_str s = LowerName.from_str t ∧
    ∀ (srv srv2 : Server) (r : Response) (nt : LowerName),
      Server.add_response srv s r = (Except.ok (), srv2) →
      LowerName.from_str t = some nt →
      Store.get srv2.store nt = some r := by
  have heq : LowerName.from_str s = LowerName.from_str t := by
    rw [from_str_eq_fromLower s, from_str_eq_fromLower t]
    exact fromLower_dropTrailingDot _ _
      (by simpa using string_data_ne_nil s hs)
      (by simpa using string_data_ne_nil t ht) h
  refine ⟨heq, ?_⟩
  intro srv srv2 r nt hadd hnt
  unfold Server.add_response at hadd
  rw [heq, hnt] at hadd
  simp only at hadd
  have hsrv2 : srv2 = ⟨Store.insert srv.store nt r⟩ := by
    have := congrArg Prod.snd hadd
    simpa using this.symm
  rw [hsrv2]
  simp [get_insert]

/-- C6: the store holds at most one outcome per normalized name — after
registering the same textual name twice, lookup returns the outcome of
the most recent registration, and no binding of that name carries any
other outcome. -/
theorem latest_registration_wins (srv srv1 srv2 : Server) (s : String)
    (r1 r2 : Response) (n : LowerName)
    (hwf : keysNodup srv.store)
    (h1 : Server.add_response srv s r1 = (Except.ok (), srv1))
    (h2 : Server.add_response srv1 s r2 = (Except.ok (), srv2))
    (hn : LowerName.from_str s = some n) :
    Store.get srv2.store n = some r2 ∧
    ∀ p ∈ srv2.store, p.1 = n → p.2 = r2 := by
  unfold Server.add_response at h1 h2
  rw [hn] at h1 h2
  simp only at h1 h2
  have e1 : srv1 = ⟨Store.insert srv.store n r1⟩ := by
    have := congrArg Prod.snd h1
    simpa using this.symm
  have e2 : srv2 = ⟨Store.insert srv1.store n r2⟩ := by
    have := congrArg Prod.snd h2
    simpa using this.symm
  constructor
  · rw [e2]
    simp [get_insert]
  · intro p hp hpk
    have hwf1 : keysNodup srv1.store := by
      rw [e1]
      exact keysNodup_insert _ _ _ hwf
    apply mem_insert_key_eq srv1.store n r2 hwf1 p _ hpk
    rw [e2] at hp
    exact hp

/-- C7: registration returns an error exactly when the textual name
cannot be parsed as a valid DNS name; the error is returned to the
caller, and when registration fails the store is left unchanged. -/
theorem add_response_error_iff (srv : Server) (s : String) (r : Response) :
    ((Server.add_response srv s r).1 = Except.error ProtoError.NameError ↔
      LowerName.from_str s = none) ∧
    (LowerName.from_str s = none → (Server.add_response srv s r).2 = srv) := by
  unfold Server.add_response
  cases h : LowerName.from_str s with
  | none => simp
  | some n => simp

/-- C8: lookup is exact-match only on the normalized name — for a server
built from a registration list in which some name is registered, a
queried proper subdomain of it that no registration normalizes to finds
no mapping and falls through to the server-failure branch. -/
theorem lookup_exact_match_only (regs : List (String × Response))
    (N Q : LowerName) (r : Response)
    (hreg : Store.get (registerAll regs).store N = some r)
    (hsub : ∃ pre, pre ≠ [] ∧ Q.labels = pre ++ N.labels)
    (hQ : ∀ p ∈ regs, LowerName.from_str p.1 ≠ some Q) :
    (handle_request (registerAll regs) Q).1 =
      { header := { authoritative := true, responseCode := ResponseCode.ServFail },
        answers := [] } := by
  have main : ∀ (l : List (String × Response)) (srv : Server),
      (∀ p ∈ l, LowerName.from_str p.1 ≠ some Q) →
      Store.get srv.store Q = none →
      Store.get (l.foldl (fun srv p => (Server.add_response srv p.1 p.2).2) srv).store Q =
        none := by
    intro l
    induction l with
    | nil => intro srv _ h0; exact h0
    | cons p rest ih =>
      intro srv hall h0
      simp only [List.foldl_cons]
      apply ih _ (fun q hq => hall q (List.mem_cons_of_mem _ hq))
      unfold Server.add_response
      cases hps : LowerName.from_str p.1 with
      | none => simpa using h0
      | some np =>
        simp only
        rw [get_insert]
        have hne : ¬(np = Q) := fun hh => hall p (List.mem_cons_self _ _) (by rw [hps, hh])
        rw [if_neg hne]
        exact h0
  have hnone : Store.get (registerAll regs).store Q = none :=
    main regs Server.default hQ rfl
  simp [handle_request, hnone]

/-- C9: request handling never mutates the record store — for every
store state and every incoming query, the store after handling the query
is identical to the store before it. -/
theorem handle_request_preserves_store (srv : Server) (q : LowerName) :
    (handle_request srv q).2 = srv := by
  unfold handle_request
  cases h : Store.get srv.store q with
  | none => rfl
  | some r => cases r <;> rfl

/-- C10: for every name registered with an empty address list, handling
a query for that name produces a response with the authoritative flag
set, response code success, and zero answer records — observably
distinct from the unregistered case, which yields server failure. -/
theorem handle_request_empty_addresses (srv : Server) (q : LowerName)
    (h : Store.get srv.store q = some (Response.Ok [])) :
    (handle_request srv q).1.header.authoritative = true ∧
    (handle_request srv q).1.header.responseCode = ResponseCode.NoError ∧
    (handle_request srv q).1.answers = [] ∧
    (∀ srv2 : Server, Store.get srv2.store q = none →
      (handle_request srv q).1 ≠ (handle_request srv2 q).1) := by
  refine ⟨by simp [handle_request, h], by simp [handle_request, h],
    by simp [handle_request, h], ?_⟩
  intro srv2 h2
  simp only [handle_request, h, h2]
  intro hcontra
  have := congrArg (fun r => r.header.responseCode) hcontra
  simp at this

/-- Concrete normalized name for witnesses: `www.example.com`. -/
def wwwExampleCom : LowerName :=
  ⟨[['w', 'w', 'w'], ['e', 'x', 'a', 'm', 'p', 'l', 'e'], ['c', 'o', 'm']]⟩

/-- Concrete normalized name for witnesses: `sub.www.example.com`. -/
def subWwwExampleCom : LowerName :=
  ⟨[['s', 'u', 'b'], ['w', 'w', 'w'], ['e', 'x', 'a', 'm', 'p', 'l', 'e'], ['c', 'o', 'm']]⟩

/-- Witness for C1 at a concrete registration of one IPv4 and one IPv6
address under `www.example.com.`. -/
theorem handle_request_address_set_witness :
    (handle_request
        (Server.add_records Server.default "www.example.com."
          [IpAddr.V4 1 2 3 4, IpAddr.V6 0 0 0 0 0 0 0 1]).2
        wwwExampleCom).1.header.authoritative = true ∧
    (handle_request
        (Server.add_records Server.default "www.example.com."
          [IpAddr.V4 1 2 3 4, IpAddr.V6 0 0 0 0 0 0 0 1]).2
        wwwExampleCom).1.header.responseCode = ResponseCode.NoError ∧
    (handle_request
        (Server.add_records Server.default "www.example.com."
          [IpAddr.V4 1 2 3 4, IpAddr.V6 0 0 0 0 0 0 0 1]).2
        wwwExampleCom).1.answers =
      [IpAddr.V4 1 2 3 4, IpAddr.V6 0 0 0 0 0 0 0 1].map (fun entry =>
        Record.from_rdata wwwExampleCom 60
          (match entry with
           | IpAddr.V4 a b c d => RData.A a b c d
           | IpAddr.V6 g1 g2 g3 g4 g5 g6 g7 g8 =>
             RData.AAAA g1 g2 g3 g4 g5 g6 g7 g8)) :=
  handle_request_address_set _ wwwExampleCom [IpAddr.V4 1 2 3 4, IpAddr.V6 0 0 0 0 0 0 0 1]
    (by decide) (by decide)

/-- Witness for C2: the empty server answers `www.example.com` with
server failure and no records. -/
theorem handle_request_not_found_witness :
    (handle_request Server.default wwwExampleCom).1 =
      { header := { authoritative := true, responseCode := ResponseCode.ServFail },
        answers := [] } :=
  handle_request_not_found Server.default wwwExampleCom (by decide)

/-- Witness for C3 at a concrete NXDomain registration. -/
theorem handle_request_status_only_witness :
    (handle_request
        (Server.add_response Server.default "www.example.com."
          (Response.Code ResponseCode.NXDomain)).2
        wwwExampleCom).1.header.authoritative = true ∧
    (handle_request
        (Server.add_response Server.default "www.example.com."
          (Response.Code ResponseCode.NXDomain)).2
        wwwExampleCom).1.header.responseCode = ResponseCode.NXDomain ∧
    (handle_request
        (Server.add_response Server.default "www.example.com."
          (Response.Code ResponseCode.NXDomain)).2
        wwwExampleCom).1.answers = [] ∧
    (ResponseCode.NXDomain ≠ ResponseCode.ServFail →
      ∀ srv2 : Server, Store.get srv2.store wwwExampleCom = none →
        (handle_request
            (Server.add_response Server.default "www.example.com."
              (Response.Code ResponseCode.NXDomain)).2
            wwwExampleCom).1 ≠ (handle_request srv2 wwwExampleCom).1) :=
  handle_request_status_only _ wwwExampleCom ResponseCode.NXDomain (by decide)

/-- Witness for C5 at the spec's own example pair: `Example.com`
registered, `example.com.` queried. -/
theorem name_matching_normalized_witness :
    LowerName.from_str "Example.com" = LowerName.from_str "example.com." ∧
    ∀ (srv srv2 : Server) (r : Response) (nt : LowerName),
      Server.add_response srv "Example.com" r = (Except.ok (), srv2) →
      LowerName.from_str "example.com." = some nt →
      Store.get srv2.store nt = some r :=
  name_matching_normalized "Example.com" "example.com." (by decide) (by decide) (by decide)

/-- Witness for C6: registering `www.example.com.` as NXDomain and then
as an address list leaves only the address-list outcome. -/
theorem latest_registration_wins_witness :
    Store.get
        (Server.add_response
          (Server.add_response Server.default "www.example.com."
            (Response.Code ResponseCode.NXDomain)).2
          "www.example.com." (Response.Ok [IpAddr.V4 1 2 3 4])).2.store
        wwwExampleCom = some (Response.Ok [IpAddr.V4 1 2 3 4]) ∧
    ∀ p ∈ (Server.add_response
          (Server.add_response Server.default "www.example.com."
            (Response.Code ResponseCode.NXDomain)).2
          "www.example.com." (Response.Ok [IpAddr.V4 1 2 3 4])).2.store,
      p.1 = wwwExampleCom → p.2 = Response.Ok [IpAddr.V4 1 2 3 4] :=
  latest_registration_wins Server.default _ _ "www.example.com."
    (Response.Code ResponseCode.NXDomain) (Response.Ok [IpAddr.V4 1 2 3 4])
    wwwExampleCom (by simp [keysNodup, Server.default, Store.get]) rfl rfl (by decide)

/-- Witness for C7 at the unparseable name `a..b` (empty label). -/
theorem add_response_error_iff_witness :
    ((Server.add_response Server.default "a..b"
        (Response.Code ResponseCode.ServFail)).1 = Except.error ProtoError.NameError ↔
      LowerName.from_str "a..b" = none) ∧
    (LowerName.from_str "a..b" = none →
      (Server.add_response Server.default "a..b"
        (Response.Code ResponseCode.ServFail)).2 = Server.default) :=
  add_response_error_iff Server.default "a..b" (Response.Code ResponseCode.ServFail)

/-- Witness for C8: with only `www.example.com.` registered, querying
the proper subdomain `sub.www.example.com` falls through to server
failure. -/
theorem lookup_exact_match_only_witness :
    (handle_request
        (registerAll [("www.example.com.", Response.Ok [IpAddr.V4 1 2 3 4])])
        subWwwExampleCom).1 =
      { header := { authoritative := true, responseCode := ResponseCode.ServFail },
        answers := [] } :=
  lookup_exact_match_only [("www.example.com.", Response.Ok [IpAddr.V4 1 2 3 4])]
    wwwExampleCom subWwwExampleCom (Response.Ok [IpAddr.V4 1 2 3 4])
    (by decide) ⟨[['s', 'u', 'b']], by decide, by decide⟩ (by decide)

/-- Witness for C10: a name registered with an empty address list
answers success with zero records, unlike the empty server. -/
theorem handle_request_empty_addresses_witness :
    (handle_request (Server.add_records Server.default "www.example.com." []).2
        wwwExampleCom).1.header.authoritative = true ∧
    (handle_request (Server.add_records Server.default "www.example.com." []).2
        wwwExampleCom).1.header.responseCode = ResponseCode.NoError ∧
    (handle_request (Server.add_records Server.default "www.example.com." []).2
        wwwExampleCom).1.answers = [] ∧
    (∀ srv2 : Server, Store.get srv2.store wwwExampleCom = none →
      (handle_request (Server.add_records Server.default "www.example.com." []).2
          wwwExampleCom).1 ≠ (handle_request srv2 wwwExampleCom).1) :=
  handle_request_empty_addresses _ wwwExampleCom (by decide)

end DnsMock
